import Mathlib

/-!
Verification development for the MAyaai voice-companion client.

The definitions below are a shallow embedding of the core logic of
`src/App.tsx` (the session controller, playback scheduler, transcript/turn
state machine and emotion classifier) together with a spec-faithful model of
the PCM codec from `src/utils/audio-utils.ts`, which is imported by the app
but whose source is not part of this tree.

Conventions of the embedding:
* audio-clock times and buffer durations are exact rationals (`ℚ`);
* int16 samples are integers (`ℤ`) with explicit two's-complement reduction
  where the JavaScript semantics wraps;
* every run of the `onmessage` callback is modelled as one atomic state
  transition (the event loop is single-threaded and run-to-completion);
* React state reads inside callback closures see the values captured when
  the closure was created; functional `set` updaters act on live state.
-/

set_option maxRecDepth 4000

namespace MAyaai

/-- Emotion labels, from `src/types.ts` (`Emotion`). `default` is the
neutral state. -/
inductive Emotion where
  | joy | empathy | calm | curiosity | frustration | surprise | boredom | default
deriving DecidableEq

/-- Connection lifecycle states, from `src/types.ts` (`ConnectionStatus`). -/
inductive ConnectionStatus where
  | IDLE | CONNECTING | CONNECTED | ERROR
deriving DecidableEq

/-- Message roles, from `src/types.ts` (`Message.role`). -/
inductive Role where
  | user | model
deriving DecidableEq

/-- A finalized conversation message, from `src/types.ts` (`Message`).
`timestamp` is the `Date.now()` value at append time. -/
structure Message where
  role : Role
  text : String
  timestamp : Nat
deriving DecidableEq

/- ---------------------------------------------------------------------- -/
/- Emotion classifier: `detectEmotion`, src/App.tsx lines 48-81.           -/
/- ---------------------------------------------------------------------- -/

/-- JavaScript regex `\w` character class (`[A-Za-z0-9_]`), used by the
word-boundary assertions `\b` in the keyword regexes. -/
def wordChar (c : Char) : Bool :=
  c.isAlpha || c.isDigit || c = '_'

/-- Whether the character at position `p` of `s` exists and is a word
character. -/
def wAt (s : List Char) (p : Nat) : Bool :=
  decide (p < s.length) && wordChar (s.getD p ' ')

/-- Whether the character just before position `p` exists and is a word
character. -/
def wBefore (s : List Char) (p : Nat) : Bool :=
  match p with
  | 0 => false
  | q + 1 => wAt s q

/-- JavaScript `\b` word-boundary assertion at position `p` of `s`: holds
when exactly one of the adjacent positions carries a word character. -/
def bdry (s : List Char) (p : Nat) : Bool :=
  wBefore s p != wAt s p

/-- Whether the literal keyword `kw` occurs in `s` starting at position `i`,
with word boundaries on both sides — i.e. a match of `\bkw\b` anchored
at `i`. -/
def matchesAt (s kw : List Char) (i : Nat) : Bool :=
  ((s.drop i).take kw.length) == kw && bdry s i && bdry s (i + kw.length)

/-- Semantics of `/\b(k1|k2|...)\b/.test(s)`: some alternative matches somewhere in `s`. -/
def testKws (kws : List (List Char)) (s : List Char) : Bool :=
  kws.any fun kw => (List.range (s.length + 1)).any fun i => matchesAt s kw i

/-- Surprise keywords, src/App.tsx line 52 (`really?` has a literal escaped
question mark in the regex). -/
def surpriseKws : List (List Char) :=
  ["wow", "whoa", "surprise", "unbelievable", "sudden", "unexpected",
   "really?", "no way", "incredible"].map String.data

/-- Frustration keywords, src/App.tsx line 56. -/
def frustrationKws : List (List Char) :=
  ["frustrating", "annoying", "bother", "difficult", "hard", "tough",
   "ugh", "sigh", "annoyed"].map String.data

/-- Boredom keywords, src/App.tsx line 60. -/
def boredomKws : List (List Char) :=
  ["bored", "repetitive", "same", "dull", "slow", "nothing", "empty",
   "routine", "yawn"].map String.data

/-- Joy keywords, src/App.tsx line 64. -/
def joyKws : List (List Char) :=
  ["happy", "excited", "great", "amazing", "wonderful", "love", "yay",
   "joy", "fantastic", "brilliant", "glad", "delighted"].map String.data

/-- Empathy keywords, src/App.tsx line 68. -/
def empathyKws : List (List Char) :=
  ["sorry", "sad", "understand", "there", "care", "heart", "empathy",
   "support", "feel", "lonely", "hurt", "pain"].map String.data

/-- Calm keywords, src/App.tsx line 72. -/
def calmKws : List (List Char) :=
  ["relax", "calm", "breathe", "peace", "quiet", "gentle", "soft", "rest",
   "still", "okay", "fine"].map String.data

/-- Curiosity keywords, src/App.tsx line 76. -/
def curiosityKws : List (List Char) :=
  ["why", "how", "curious", "interesting", "wonder", "think", "thought",
   "idea", "question", "analyze", "learn"].map String.data

/-- Lower-casing `text.toLowerCase()` restricted to the ASCII range, which covers every
keyword tested by the classifier (`Char.toLower` lowers exactly ASCII
letters, matching JavaScript on this fragment). -/
def lowered (text : String) : List Char :=
  text.data.map Char.toLower

/-- The classifier `detectEmotion`, src/App.tsx lines 48-81: lower-case the text and apply
the keyword tests in source order, returning the first match, else
`default`. -/
def detectEmotion (text : String) : Emotion :=
  let lower := lowered text
  if testKws surpriseKws lower then Emotion.surprise
  else if testKws frustrationKws lower then Emotion.frustration
  else if testKws boredomKws lower then Emotion.boredom
  else if testKws joyKws lower then Emotion.joy
  else if testKws empathyKws lower then Emotion.empathy
  else if testKws calmKws lower then Emotion.calm
  else if testKws curiosityKws lower then Emotion.curiosity
  else Emotion.default

/-- The classifier's precedence table in source order, paired with the
category each keyword set selects. -/
def precedenceList : List (List (List Char) × Emotion) :=
  [(surpriseKws, Emotion.surprise), (frustrationKws, Emotion.frustration),
   (boredomKws, Emotion.boredom), (joyKws, Emotion.joy),
   (empathyKws, Emotion.empathy), (calmKws, Emotion.calm),
   (curiosityKws, Emotion.curiosity)]

/-- First-match reading of the classifier: scan the precedence table and
return the first category whose keyword test succeeds, else `default`. -/
def firstMatch (text : String) : Emotion :=
  ((precedenceList.find? fun p => testKws p.1 (lowered text)).map Prod.snd).getD
    Emotion.default

example : detectEmotion "I am happy" = Emotion.joy := by decide
example : detectEmotion "wow happy relax" = Emotion.surprise := by decide
example : detectEmotion "zzz qqq" = Emotion.default := by decide

/- ---------------------------------------------------------------------- -/
/- Application state and the session event handlers (src/App.tsx).         -/
/- ---------------------------------------------------------------------- -/

/-- An outbound transmission on the remote channel. -/
inductive Sent where
  /-- Call of `sendRealtimeInput` with one encoded capture frame (line 139). -/
  | realtimeChunk (samples : List ℤ)
  /-- Call of `sendClientContent` with a typed text turn (lines 237-239). -/
  | clientText (text : String)
deriving DecidableEq

/-- The component state of `App` (`useState` hooks, lines 26-33) together
with the mutable refs (lines 43-45) and two observation logs.

* `session` models `sessionRef.current !== null`;
* `sources` is the active playback set `sourcesRef.current`, each handle
  recorded as its `(scheduled start time, duration)` pair;
* `stoppedLog` records every handle on which `stop()` was forcibly called
  (as opposed to reaching natural completion);
* `sentLog` records every outbound transmission;
* `timers` records the `Date.now()`-based fire times of the emotion decay
  callbacks scheduled by `setTimeout(..., 2000)` at line 163. -/
structure AppState where
  status : ConnectionStatus
  messages : List Message
  currentInput : String
  currentOutput : String
  textValue : String
  volume : ℚ
  isSpeaking : Bool
  emotion : Emotion
  session : Bool
  nextStartTime : ℚ
  sources : List (ℚ × ℚ)
  stoppedLog : List (ℚ × ℚ)
  sentLog : List Sent
  timers : List Nat
deriving DecidableEq

/-- The relevant content of one inbound `LiveServerMessage`
(`message.serverContent`), as read by `onmessage` (lines 146-199). An
arriving audio fragment is represented by the duration of its decoded
buffer. -/
structure ServerMsg where
  outputTrans : Option String
  inputTrans : Option String
  turnComplete : Bool
  audioData : Option ℚ
  interrupted : Bool
deriving DecidableEq

/-- Lines 147-151: append an output-transcription fragment to the live
output buffer, else an input-transcription fragment to the live input
buffer (the two branches are an `else if` chain; both use functional
`set` updaters, so they act on live state). -/
def stepTrans (msg : ServerMsg) (st : AppState) : AppState :=
  match msg.outputTrans, msg.inputTrans with
  | some t, _ => { st with currentOutput := st.currentOutput ++ t }
  | none, some t => { st with currentInput := st.currentInput ++ t }
  | none, none => st

/-- The messages pushed by the turn-complete branch (lines 154-159) given
the pair of `currentInput`/`currentOutput` values it reads and the current
`Date.now()`. An empty buffer is falsy and contributes no entry. -/
def turnMsgs (cap : String × String) (now : Nat) : List Message :=
  (if cap.1 ≠ "" then [⟨Role.user, cap.1, now⟩] else [])
    ++ (if cap.2 ≠ "" then [⟨Role.model, cap.2, now⟩] else [])

/-- Lines 153-164: on `turnComplete`, push the user then the model entry
built from the closure-captured buffers `cap`, clear both live buffers, and
schedule an emotion decay 2000 ms from now.

`cap` is the pair of `currentInput`/`currentOutput` values captured by the
`onmessage` closure when `startSession` ran: the callbacks are created once,
inside `startSession`, and close over that render's `const` bindings, so the
direct reads at lines 156-157 see those captured values for the whole
session (only the functional updaters at lines 148/150 act on live state). -/
def stepTurn (cap : String × String) (now : Nat) (msg : ServerMsg)
    (st : AppState) : AppState :=
  if msg.turnComplete then
    { st with
      messages := st.messages ++ turnMsgs cap now
      currentInput := ""
      currentOutput := ""
      timers := st.timers ++ [now + 2000] }
  else st

/-- The playback cursor update of lines 169 and 186-187:
`nextStartTime = max(nextStartTime, currentTime)`; the buffer starts there
and the cursor advances by the buffer's duration. Returns
`(start, new cursor)`. -/
def scheduleStep (nst clock d : ℚ) : ℚ × ℚ :=
  (max nst clock, max nst clock + d)

/-- Lines 166-189: on an audio fragment, mark speaking, schedule the decoded
buffer at `max(nextStartTime, output.currentTime)`, advance the cursor by
its duration, and register the handle in the active set. -/
def stepPlay (clock : ℚ) (msg : ServerMsg) (st : AppState) : AppState :=
  match msg.audioData with
  | some d =>
      let p := scheduleStep st.nextStartTime clock d
      { st with
        isSpeaking := true
        nextStartTime := p.2
        sources := st.sources ++ [(p.1, d)] }
  | none => st

/-- Lines 191-198: on `interrupted`, force-stop every handle in the active
set (`s.stop()`, recorded in `stoppedLog`), clear the set, reset the cursor
to 0 and signal speaking ended. -/
def stepInterrupt (msg : ServerMsg) (st : AppState) : AppState :=
  if msg.interrupted then
    { st with
      stoppedLog := st.stoppedLog ++ st.sources
      sources := []
      nextStartTime := 0
      isSpeaking := false }
  else st

/-- The `[currentOutput]` effect of lines 83-90: when the live output buffer
changed and is non-empty, classify it and update the emotion unless the
classification is neutral. `old` is the buffer's value before the change. -/
def stepEffect (old : String) (st : AppState) : AppState :=
  if st.currentOutput ≠ old ∧ st.currentOutput ≠ "" then
    if detectEmotion st.currentOutput ≠ Emotion.default then
      { st with emotion := detectEmotion st.currentOutput }
    else st
  else st

/-- One atomic run of the `onmessage` callback (src/App.tsx lines 146-199)
followed by the `[currentOutput]` effect (lines 83-90). `cap` is the pair
of `currentInput`/`currentOutput` values captured by the callback's closure
at session open, `now` is `Date.now()` and `clock` is
`output.currentTime`. -/
def handleMessage (cap : String × String) (now : Nat) (clock : ℚ)
    (msg : ServerMsg) (st : AppState) : AppState :=
  stepEffect st.currentOutput
    (stepInterrupt msg (stepPlay clock msg (stepTurn cap now msg (stepTrans msg st))))

/-- The `ended` listener of one playback handle (lines 181-184): remove the
handle from the active set; if the set became empty, signal speaking
ended. -/
def srcEnded (h : ℚ × ℚ) (st : AppState) : AppState :=
  let ss := st.sources.erase h
  { st with
    sources := ss
    isSpeaking := if ss.isEmpty then false else st.isSpeaking }

/-- JavaScript whitespace test backing `textValue.trim()`: the trimmed
string is empty iff every character is whitespace. -/
def isBlank (s : String) : Bool :=
  s.data.all Char.isWhitespace

/-- The handler `handleSendText`, src/App.tsx lines 227-243: bail out when the pending
text is blank or no session is open; otherwise force-stop and clear active
playback, reset the cursor, signal speaking ended, transmit the text turn,
append the user message, and clear the input field. -/
def handleSendText (now : Nat) (st : AppState) : AppState :=
  if isBlank st.textValue || !st.session then st
  else
    { st with
      stoppedLog := st.stoppedLog ++ st.sources
      sources := []
      nextStartTime := 0
      isSpeaking := false
      sentLog := st.sentLog ++ [Sent.clientText st.textValue]
      messages := st.messages ++ [⟨Role.user, st.textValue, now⟩]
      textValue := "" }

/-- The handler `stopSession`, src/App.tsx lines 245-254: close and drop the session if
one is open, return the status to `IDLE`, signal speaking ended, zero the
volume and reset the emotion. (The active playback set is not touched.) -/
def stopSession (st : AppState) : AppState :=
  { st with
    session := false
    status := ConnectionStatus.IDLE
    isSpeaking := false
    volume := 0
    emotion := Emotion.default }

/-- The `setTimeout` callback scheduled at line 163: unconditionally reset
the emotion to neutral. Nothing ever cancels these callbacks. -/
def fireDecay (st : AppState) : AppState :=
  { st with emotion := Emotion.default }

/-- The component state at the moment a session reaches `CONNECTED`
(initial `useState` values, lines 26-33 and 43-45, with the status and
session flags set by `startSession`). -/
def initState : AppState :=
  { status := ConnectionStatus.CONNECTED
    messages := []
    currentInput := ""
    currentOutput := ""
    textValue := ""
    volume := 0
    isSpeaking := false
    emotion := Emotion.default
    session := true
    nextStartTime := 0
    sources := []
    stoppedLog := []
    sentLog := []
    timers := [] }

/-- An inbound message carrying only an audio fragment whose decoded buffer
has duration `d`. -/
def mkAudioMsg (d : ℚ) : ServerMsg :=
  ⟨none, none, false, some d, false⟩

/-- Process a list of audio fragments arriving in order; each element of
`evs` is the pair `(output clock at arrival, decoded duration)`. -/
def processAudios (cap : String × String) (now : Nat) :
    AppState → List (ℚ × ℚ) → AppState
  | st, [] => st
  | st, (clock, d) :: evs =>
      processAudios cap now (handleMessage cap now clock (mkAudioMsg d) st) evs

/-- Cursor threading of the scheduler in isolation: from cursor `nst`, map
each arrival `(clock, d)` to its scheduled `(start, d)` pair, advancing the
cursor by `scheduleStep`. -/
def scheduleRun (nst : ℚ) : List (ℚ × ℚ) → List (ℚ × ℚ)
  | [] => []
  | (clock, d) :: evs =>
      ((scheduleStep nst clock d).1, d) :: scheduleRun (scheduleStep nst clock d).2 evs

/- ---------------------------------------------------------------------- -/
/- Frame lemmas for the five stages of the message handler.                -/
/- ---------------------------------------------------------------------- -/

section StageLemmas

variable (cap : String × String) (now : Nat) (clock : ℚ) (msg : ServerMsg)
variable (st : AppState) (old : String)

@[simp] lemma stepTrans_sources : (stepTrans msg st).sources = st.sources := by
  unfold stepTrans
  rcases msg with ⟨ot, it, tc, ad, ir⟩
  cases ot <;> cases it <;> rfl

@[simp] lemma stepTrans_isSpeaking :
    (stepTrans msg st).isSpeaking = st.isSpeaking := by
  unfold stepTrans
  rcases msg with ⟨ot, it, tc, ad, ir⟩
  cases ot <;> cases it <;> rfl

@[simp] lemma stepTrans_nextStartTime :
    (stepTrans msg st).nextStartTime = st.nextStartTime := by
  unfold stepTrans
  rcases msg with ⟨ot, it, tc, ad, ir⟩
  cases ot <;> cases it <;> rfl

@[simp] lemma stepTrans_timers : (stepTrans msg st).timers = st.timers := by
  unfold stepTrans
  rcases msg with ⟨ot, it, tc, ad, ir⟩
  cases ot <;> cases it <;> rfl

@[simp] lemma stepTrans_stoppedLog :
    (stepTrans msg st).stoppedLog = st.stoppedLog := by
  unfold stepTrans
  rcases msg with ⟨ot, it, tc, ad, ir⟩
  cases ot <;> cases it <;> rfl

@[simp] lemma stepTurn_sources : (stepTurn cap now msg st).sources = st.sources := by
  unfold stepTurn; split <;> rfl

@[simp] lemma stepTurn_isSpeaking :
    (stepTurn cap now msg st).isSpeaking = st.isSpeaking := by
  unfold stepTurn; split <;> rfl

@[simp] lemma stepTurn_nextStartTime :
    (stepTurn cap now msg st).nextStartTime = st.nextStartTime := by
  unfold stepTurn; split <;> rfl

@[simp] lemma stepTurn_stoppedLog :
    (stepTurn cap now msg st).stoppedLog = st.stoppedLog := by
  unfold stepTurn; split <;> rfl

lemma stepTurn_true (h : msg.turnComplete = true) :
    stepTurn cap now msg st =
      { st with
        messages := st.messages ++ turnMsgs cap now
        currentInput := ""
        currentOutput := ""
        timers := st.timers ++ [now + 2000] } := by
  unfold stepTurn; rw [h]; rfl

lemma stepTurn_false (h : msg.turnComplete = false) :
    stepTurn cap now msg st = st := by
  unfold stepTurn; rw [h]; rfl

lemma stepPlay_none (h : msg.audioData = none) : stepPlay clock msg st = st := by
  unfold stepPlay; rw [h]

lemma stepPlay_some (d : ℚ) (h : msg.audioData = some d) :
    stepPlay clock msg st =
      { st with
        isSpeaking := true
        nextStartTime := max st.nextStartTime clock + d
        sources := st.sources ++ [(max st.nextStartTime clock, d)] } := by
  unfold stepPlay; rw [h]; rfl

@[simp] lemma stepPlay_timers : (stepPlay clock msg st).timers = st.timers := by
  unfold stepPlay; rcases msg with ⟨ot, it, tc, ad, ir⟩; cases ad <;> rfl

@[simp] lemma stepPlay_stoppedLog :
    (stepPlay clock msg st).stoppedLog = st.stoppedLog := by
  unfold stepPlay; rcases msg with ⟨ot, it, tc, ad, ir⟩; cases ad <;> rfl

lemma stepInterrupt_true (h : msg.interrupted = true) :
    stepInterrupt msg st =
      { st with
        stoppedLog := st.stoppedLog ++ st.sources
        sources := []
        nextStartTime := 0
        isSpeaking := false } := by
  unfold stepInterrupt; rw [h]; rfl

lemma stepInterrupt_false (h : msg.interrupted = false) :
    stepInterrupt msg st = st := by
  unfold stepInterrupt; rw [h]; rfl

@[simp] lemma stepInterrupt_timers :
    (stepInterrupt msg st).timers = st.timers := by
  unfold stepInterrupt; split <;> rfl

@[simp] lemma stepEffect_sources : (stepEffect old st).sources = st.sources := by
  unfold stepEffect
  split
  · split <;> rfl
  · rfl

@[simp] lemma stepEffect_isSpeaking :
    (stepEffect old st).isSpeaking = st.isSpeaking := by
  unfold stepEffect
  split
  · split <;> rfl
  · rfl

@[simp] lemma stepEffect_nextStartTime :
    (stepEffect old st).nextStartTime = st.nextStartTime := by
  unfold stepEffect
  split
  · split <;> rfl
  · rfl

@[simp] lemma stepEffect_timers : (stepEffect old st).timers = st.timers := by
  unfold stepEffect
  split
  · split <;> rfl
  · rfl

@[simp] lemma stepEffect_stoppedLog :
    (stepEffect old st).stoppedLog = st.stoppedLog := by
  unfold stepEffect
  split
  · split <;> rfl
  · rfl

lemma stepEffect_same (h : st.currentOutput = old) : stepEffect old st = st := by
  unfold stepEffect
  rw [if_neg]
  intro hc
  exact hc.1 h

end StageLemmas

/-- An audio-only message leaves everything untouched except marking
speaking, advancing the cursor and appending the scheduled handle. -/
lemma handleMessage_mkAudio (cap : String × String) (now : Nat) (clock d : ℚ)
    (st : AppState) :
    handleMessage cap now clock (mkAudioMsg d) st =
      { st with
        isSpeaking := true
        nextStartTime := max st.nextStartTime clock + d
        sources := st.sources ++ [(max st.nextStartTime clock, d)] } := by
  unfold handleMessage
  rw [show stepTrans (mkAudioMsg d) st = st from rfl,
      stepTurn_false cap now (mkAudioMsg d) st rfl,
      stepPlay_some clock (mkAudioMsg d) st d rfl,
      stepInterrupt_false (mkAudioMsg d) _ rfl]
  exact stepEffect_same _ _ rfl

/- ---------------------------------------------------------------------- -/
/- C1: scheduled starts are non-overlapping and monotone.                  -/
/- ---------------------------------------------------------------------- -/

lemma scheduleRun_head (evs : List (ℚ × ℚ)) (nst : ℚ) :
    ∀ x ∈ (scheduleRun nst evs).head?, nst ≤ x.1 := by
  cases evs with
  | nil => simp [scheduleRun]
  | cons e evs =>
      rcases e with ⟨c, d⟩
      simp [scheduleRun, scheduleStep]

lemma scheduleRun_chain (evs : List (ℚ × ℚ)) :
    ∀ nst : ℚ,
      List.Chain' (fun a b : ℚ × ℚ => a.1 + a.2 ≤ b.1) (scheduleRun nst evs) := by
  induction evs with
  | nil => intro nst; simp [scheduleRun]
  | cons e evs ih =>
      intro nst
      rcases e with ⟨c, d⟩
      rw [scheduleRun, List.chain'_cons']
      refine ⟨fun y hy => ?_, ih _⟩
      have h := scheduleRun_head evs (scheduleStep nst c d).2 y hy
      simpa [scheduleStep] using h

lemma processAudios_sources (cap : String × String) (now : Nat) :
    ∀ (evs : List (ℚ × ℚ)) (st : AppState),
      (processAudios cap now st evs).sources =
        st.sources ++ scheduleRun st.nextStartTime evs := by
  intro evs
  induction evs with
  | nil => intro st; simp [processAudios, scheduleRun]
  | cons e evs ih =>
      intro st
      rcases e with ⟨c, d⟩
      rw [processAudios, ih, handleMessage_mkAudio, scheduleRun]
      simp [scheduleStep]

/-- C1. Starting from a freshly connected session, process any sequence of
audio-fragment messages (each arriving at an arbitrary output-clock reading
and carrying an arbitrary decoded duration) with no intervening interrupt.
The scheduled handles in the active set are then non-overlapping and
monotone: each buffer's start time is at least the previous buffer's start
time plus the previous buffer's duration — because each start is
`max(nextStartTime, clock)` and the cursor then advances to
`start + duration`. -/
theorem playback_starts_nonoverlapping (cap : String × String) (now : Nat)
    (evs : List (ℚ × ℚ)) :
    List.Chain' (fun a b : ℚ × ℚ => a.1 + a.2 ≤ b.1)
      ((processAudios cap now initState evs).sources) := by
  rw [processAudios_sources]
  simpa [initState] using scheduleRun_chain evs 0

/- ---------------------------------------------------------------------- -/
/- C3: the interrupted branch clears playback state.                       -/
/- ---------------------------------------------------------------------- -/

/-- C3. After any inbound message carrying the `interrupted` signal is
handled: every handle that was in the active set has been force-stopped
(`s.stop()` was called on it, recorded in `stoppedLog`, distinct from the
natural-completion path `srcEnded`), the active set is empty, the cursor
`nextStartTime` is 0 and speaking is signalled ended; and an audio fragment
scheduled next, at any output-clock reading `t ≥ 0`, starts exactly at `t`
(cursor `max 0 t = t`, no queued gap). -/
theorem interrupt_clears_playback (cap cap2 : String × String)
    (now now2 : Nat) (clock t d : ℚ) (msg : ServerMsg) (st : AppState)
    (hI : msg.interrupted = true) (ht : 0 ≤ t) :
    (handleMessage cap now clock msg st).sources = [] ∧
    (handleMessage cap now clock msg st).nextStartTime = 0 ∧
    (handleMessage cap now clock msg st).isSpeaking = false ∧
    (∀ x ∈ st.sources, x ∈ (handleMessage cap now clock msg st).stoppedLog) ∧
    (handleMessage cap2 now2 t (mkAudioMsg d)
        (handleMessage cap now clock msg st)).sources = [(t, d)] := by
  have hstep :
      ∀ s : AppState,
        (stepInterrupt msg s).sources = [] ∧
        (stepInterrupt msg s).nextStartTime = 0 ∧
        (stepInterrupt msg s).isSpeaking = false ∧
        (stepInterrupt msg s).stoppedLog = s.stoppedLog ++ s.sources := by
    intro s
    rw [stepInterrupt_true msg s hI]
    exact ⟨rfl, rfl, rfl, rfl⟩
  have h3 := hstep (stepPlay clock msg (stepTurn cap now msg (stepTrans msg st)))
  have hsrc : (handleMessage cap now clock msg st).sources = [] := by
    unfold handleMessage; simp [h3.1]
  have hnst : (handleMessage cap now clock msg st).nextStartTime = 0 := by
    unfold handleMessage; simp [h3.2.1]
  have hspk : (handleMessage cap now clock msg st).isSpeaking = false := by
    unfold handleMessage; simp [h3.2.2.1]
  refine ⟨hsrc, hnst, hspk, ?_, ?_⟩
  · intro x hx
    unfold handleMessage
    rw [stepEffect_stoppedLog, h3.2.2.2]
    have hmem : x ∈ (stepPlay clock msg (stepTurn cap now msg (stepTrans msg st))).sources := by
      rcases hA : msg.audioData with _ | dd
      · rw [stepPlay_none clock msg _ hA]; simpa using hx
      · rw [stepPlay_some clock msg _ dd hA]
        simp
        left
        simpa using hx
    exact List.mem_append_right _ hmem
  · rw [handleMessage_mkAudio, hsrc, hnst]
    simp [max_eq_right ht]

/-- Witness for C3 at concrete inputs: an interrupt message arriving while
one handle `(3, 2)` is active, followed by an audio fragment of duration 1
at clock 7. -/
theorem interrupt_clears_playback_witness :
    letI st : AppState :=
      { initState with sources := [(3, 2)], isSpeaking := true, nextStartTime := 5 }
    letI msg : ServerMsg := ⟨none, none, false, none, true⟩
    (handleMessage ("", "") 0 6 msg st).sources = [] ∧
    (handleMessage ("", "") 0 6 msg st).nextStartTime = 0 ∧
    (handleMessage ("", "") 0 6 msg st).isSpeaking = false ∧
    (∀ x ∈ st.sources, x ∈ (handleMessage ("", "") 0 6 msg st).stoppedLog) ∧
    (handleMessage ("", "") 1 7 (mkAudioMsg 1)
        (handleMessage ("", "") 0 6 msg st)).sources = [(7, 1)] :=
  interrupt_clears_playback ("", "") ("", "") 0 1 6 7 1 _ _ rfl (by norm_num)

/- ---------------------------------------------------------------------- -/
/- C7: active set empty iff not speaking, across a connected session.      -/
/- ---------------------------------------------------------------------- -/

/-- States observable during one connected session: the state at connect,
closed under handling an inbound message, a playback handle ending
naturally, and a user text send. (`stopSession` tears the session down and
leaves the connected regime.) -/
inductive Reachable : AppState → Prop
  | init : Reachable initState
  | msg (cap : String × String) (now : Nat) (clock : ℚ) (m : ServerMsg)
      (st : AppState) : Reachable st → Reachable (handleMessage cap now clock m st)
  | ended (h : ℚ × ℚ) (st : AppState) :
      Reachable st → Reachable (srcEnded h st)
  | send (now : Nat) (st : AppState) :
      Reachable st → Reachable (handleSendText now st)

lemma handleMessage_inv (cap : String × String) (now : Nat) (clock : ℚ)
    (m : ServerMsg) (st : AppState)
    (ih : st.sources = [] ↔ st.isSpeaking = false) :
    (handleMessage cap now clock m st).sources = [] ↔
      (handleMessage cap now clock m st).isSpeaking = false := by
  unfold handleMessage
  rcases hI : m.interrupted
  · rw [stepInterrupt_false m _ hI]
    rcases hA : m.audioData with _ | d
    · rw [stepPlay_none clock m _ hA]
      simpa using ih
    · rw [stepPlay_some clock m _ d hA]
      simp
  · have h4 := stepInterrupt_true m
      (stepPlay clock m (stepTurn cap now m (stepTrans m st))) hI
    rw [h4]
    simp

lemma srcEnded_inv (h : ℚ × ℚ) (st : AppState)
    (ih : st.sources = [] ↔ st.isSpeaking = false) :
    (srcEnded h st).sources = [] ↔ (srcEnded h st).isSpeaking = false := by
  unfold srcEnded
  by_cases he : (st.sources.erase h).isEmpty = true
  · have h0 : st.sources.erase h = [] := by
      rwa [List.isEmpty_iff] at he
    simp [he, h0]
  · have h1 : st.sources.erase h ≠ [] := by
      simpa [List.isEmpty_iff] using he
    have h2 : st.sources ≠ [] := by
      intro hnil
      exact h1 (by simp [hnil])
    have h3 : st.isSpeaking = true := by
      rcases Bool.eq_false_or_eq_true st.isSpeaking with hb | hb
      · exact hb
      · exact absurd (ih.mpr hb) h2
    simp [he, h1, h3]

lemma handleSendText_inv (now : Nat) (st : AppState)
    (ih : st.sources = [] ↔ st.isSpeaking = false) :
    (handleSendText now st).sources = [] ↔
      (handleSendText now st).isSpeaking = false := by
  unfold handleSendText
  split
  · exact ih
  · simp

/-- C7. At every state observable during a connected session — the state at
connect and anything reachable from it through inbound messages, natural
playback completions and user text sends — the active playback set is empty
exactly when `isSpeaking` is false. -/
theorem active_set_empty_iff_not_speaking (st : AppState)
    (h : Reachable st) : st.sources = [] ↔ st.isSpeaking = false := by
  induction h with
  | init => simp [initState]
  | msg cap now clock m st _ ih => exact handleMessage_inv cap now clock m st ih
  | ended hnd st _ ih => exact srcEnded_inv hnd st ih
  | send now st _ ih => exact handleSendText_inv now st ih

/-- Witness for C7 at a concrete reachable state: after one audio fragment
of duration 2 at clock 0, the set is non-empty and speaking is on. -/
theorem active_set_empty_iff_not_speaking_witness :
    Reachable (handleMessage ("", "") 0 0 (mkAudioMsg 2) initState) ∧
    ((handleMessage ("", "") 0 0 (mkAudioMsg 2) initState).sources = [] ↔
      (handleMessage ("", "") 0 0 (mkAudioMsg 2) initState).isSpeaking = false) :=
  ⟨Reachable.msg _ _ _ _ _ Reachable.init,
   active_set_empty_iff_not_speaking _ (Reachable.msg _ _ _ _ _ Reachable.init)⟩

/- ---------------------------------------------------------------------- -/
/- C9: stopSession is idempotent and lands in IDLE.                        -/
/- ---------------------------------------------------------------------- -/

/-- C9. Calling `stopSession` leaves the connection status at `IDLE` from
any state; calling it again is an exact no-op on the whole state (so a
second call in succession — or a call when no session or audio is active,
which the first call already normalized — produces no error and stays at
`IDLE`). -/
theorem stopSession_idempotent (st : AppState) :
    (stopSession st).status = ConnectionStatus.IDLE ∧
    (stopSession (stopSession st)).status = ConnectionStatus.IDLE ∧
    stopSession (stopSession st) = stopSession st :=
  ⟨rfl, rfl, rfl⟩

/- ---------------------------------------------------------------------- -/
/- C10: handleSendText is a no-op on blank text or no session.             -/
/- ---------------------------------------------------------------------- -/

/-- C10. When the pending text is empty or all-whitespace, or no session is
open, `handleSendText` returns the state unchanged: no source is stopped,
the cursor is untouched, `isSpeaking` is unchanged, nothing is transmitted,
no message is appended and the pending text is not cleared. -/
theorem handleSendText_noop (now : Nat) (st : AppState)
    (h : isBlank st.textValue = true ∨ st.session = false) :
    handleSendText now st = st := by
  unfold handleSendText
  rcases h with h | h <;> simp [h]

/-- Witness for C10 at a concrete input: all-whitespace pending text with an
open session. -/
theorem handleSendText_noop_witness :
    letI st : AppState := { initState with textValue := "  " }
    isBlank st.textValue = true ∧ handleSendText 7 st = st :=
  ⟨by decide, handleSendText_noop 7 _ (Or.inl (by decide))⟩

/- ---------------------------------------------------------------------- -/
/- C8: the emotion decay timer.                                            -/
/- ---------------------------------------------------------------------- -/

/-- A turn-complete message at `Date.now() = 0`, then an output fragment
containing the joy keyword at `Date.now() = 1000`: the first turn's pending
decay is still scheduled (fire time 2000) while the emotion is `joy`. -/
def c8State : AppState :=
  handleMessage ("", "") 1000 0 ⟨some "i am happy", none, false, none, false⟩
    (handleMessage ("", "") 0 0 ⟨none, none, true, none, false⟩ initState)

/-- C8, counterexample. The claim says a pending decay scheduled for an
earlier turn never resets an emotion set by a later classification, because
starting a new turn's accumulation cancels the pending decay. In the code
the `setTimeout` at line 163 is never cancelled: after a turn completes at
time 0 and a later output fragment sets the emotion to `joy` at time 1000,
the first turn's decay (fire time 2000) is still pending, and firing it
resets the emotion to neutral. -/
theorem decay_timer_not_cancelled_cex :
    c8State.emotion = Emotion.joy ∧
    c8State.timers = [2000] ∧
    (fireDecay c8State).emotion = Emotion.default := by
  refine ⟨?_, ?_, rfl⟩ <;> decide

/-- C8, amended. Every turn-complete message schedules an independent decay
2000 ms after its `Date.now()`, without cancelling any pending one (the
timer list only grows, whatever else the message carries), and a decay
callback firing resets the emotion to neutral unconditionally — so a decay
scheduled for an earlier turn can reset an emotion set by a subsequent
turn's classification. -/
theorem decay_timer_amended (cap : String × String) (now : Nat) (clock : ℚ)
    (msg : ServerMsg) (st st2 : AppState) (h : msg.turnComplete = true) :
    (handleMessage cap now clock msg st).timers = st.timers ++ [now + 2000] ∧
    (fireDecay st2).emotion = Emotion.default := by
  constructor
  · unfold handleMessage
    rw [stepEffect_timers, stepInterrupt_timers, stepPlay_timers,
        stepTurn_true cap now msg _ h]
    simp
  · rfl

/-- Witness for C8's amended statement at concrete inputs. -/
theorem decay_timer_amended_witness :
    (handleMessage ("", "") 5 0 (⟨none, none, true, none, false⟩ : ServerMsg)
        initState).timers = initState.timers ++ [5 + 2000] ∧
    (fireDecay initState).emotion = Emotion.default :=
  decay_timer_amended ("", "") 5 0 _ initState initState rfl

/- ---------------------------------------------------------------------- -/
/- C4: the turn-complete flush (stale closure).                            -/
/- ---------------------------------------------------------------------- -/

/-- The session state after the fragment interleaving of C4: session opened
from the initial render (so the `onmessage` closure captured
`currentInput = ""` and `currentOutput = ""`), then an input fragment
`"hello"`, an output fragment `"hi there"`, and a turn-complete signal. -/
def c4State : AppState :=
  handleMessage ("", "") 102 0 ⟨none, none, true, none, false⟩
    (handleMessage ("", "") 101 0 ⟨some "hi there", none, false, none, false⟩
      (handleMessage ("", "") 100 0 ⟨none, some "hello", false, none, false⟩
        initState))

/-- C4. The claim says the turn-complete handler appends the two
accumulated entries `{user, "hello"}` then `{agent, "hi there"}`. In the
code the push at lines 156-157 reads `currentInput`/`currentOutput` from
the closure captured when the session was opened — both empty — so although
the fragments were accumulated into live state (visible just before the
turn-complete message), the handler appends nothing and merely clears the
buffers. -/
theorem turn_flush_appends_nothing :
    (handleMessage ("", "") 101 0 ⟨some "hi there", none, false, none, false⟩
      (handleMessage ("", "") 100 0 ⟨none, some "hello", false, none, false⟩
        initState)).currentInput = "hello" ∧
    (handleMessage ("", "") 101 0 ⟨some "hi there", none, false, none, false⟩
      (handleMessage ("", "") 100 0 ⟨none, some "hello", false, none, false⟩
        initState)).currentOutput = "hi there" ∧
    c4State.messages = [] ∧
    c4State.currentInput = "" ∧
    c4State.currentOutput = "" := by
  refine ⟨?_, ?_, ?_, ?_, ?_⟩ <;> decide

/- ---------------------------------------------------------------------- -/
/- C5: the capture pipeline's float-to-int16 conversion.                   -/
/- ---------------------------------------------------------------------- -/

/-- Truncation toward zero on ℚ — the integer-conversion step of the
JavaScript `ToInt16` abstract operation applied when a number is stored
into an `Int16Array` element. -/
def qtrunc (x : ℚ) : ℤ :=
  if 0 ≤ x then ⌊x⌋ else -⌊-x⌋

/-- JavaScript `ToInt16`: truncate toward zero, reduce modulo 2^16, and
reinterpret as a signed 16-bit value. This is the semantics of the store
`int16[i] = ...` at src/App.tsx line 131. -/
def toInt16 (x : ℚ) : ℤ :=
  if qtrunc x % 65536 < 32768 then qtrunc x % 65536
  else qtrunc x % 65536 - 65536

/-- The capture conversion at src/App.tsx line 131:
`int16[i] = inputData[i] * 32768` (no rounding, no clamping). -/
def captureSample (f : ℚ) : ℤ :=
  toInt16 (f * 32768)

/-- The conversion the claim states: `round(f * 32768)` clamped to the
int16 range. -/
def claimedSample (f : ℚ) : ℤ :=
  max (-32768) (min 32767 (round (f * 32768)))

/-- C5, counterexample. At the boundary input `f = +1.0` the code wraps to
`-32768` (opposite sign) where the claim requires the clamped value
`32767`; and at `f = 503/163840` (so `f * 32768 = 100.6`) the code
truncates to `100` where the claimed rounding gives `101`. -/
theorem capture_conversion_cex :
    captureSample 1 = -32768 ∧ claimedSample 1 = 32767 ∧
    captureSample (503 / 163840) = 100 ∧ claimedSample (503 / 163840) = 101 := by
  refine ⟨?_, ?_, ?_, ?_⟩ <;>
    norm_num [captureSample, toInt16, qtrunc, claimedSample, round_eq]

lemma qtrunc_bounds (x : ℚ) (ha : -32768 ≤ x) (hb : x < 32768) :
    -32768 ≤ qtrunc x ∧ qtrunc x ≤ 32767 := by
  unfold qtrunc
  split
  · rename_i hx
    constructor
    · have h0 : (0 : ℤ) ≤ ⌊x⌋ := Int.floor_nonneg.mpr hx
      omega
    · have h1 : ⌊x⌋ < 32768 := by
        rw [Int.floor_lt]
        exact_mod_cast hb
      omega
  · rename_i hx
    push_neg at hx
    have h0 : (0 : ℤ) ≤ ⌊-x⌋ := Int.floor_nonneg.mpr (by linarith)
    have h1 : ⌊-x⌋ ≤ 32768 := by
      have : (-x : ℚ) ≤ ((32768 : ℤ) : ℚ) := by push_cast; linarith
      calc ⌊-x⌋ ≤ ⌊((32768 : ℤ) : ℚ)⌋ := Int.floor_le_floor this
        _ = 32768 := Int.floor_intCast _
    omega

lemma toInt16_of_range (x : ℚ) (hl : -32768 ≤ qtrunc x)
    (hu : qtrunc x ≤ 32767) : toInt16 x = qtrunc x := by
  unfold toInt16
  split <;> omega

/-- C5, amended. The conversion is `trunc(f * 32768)` reduced modulo 2^16
into the signed 16-bit range — no rounding and no clamping. For every
`f ∈ [-1, 1)` the product lies in `[-32768, 32768)`, so the truncation is
already in range and no wrap occurs; at the boundary `f = +1.0` the value
32768 wraps to `-32768`. -/
theorem capture_conversion_amended (f : ℚ) (h1 : -1 ≤ f) (h2 : f < 1) :
    captureSample f = qtrunc (f * 32768) ∧
    -32768 ≤ captureSample f ∧ captureSample f ≤ 32767 ∧
    captureSample 1 = -32768 := by
  have ha : (-32768 : ℚ) ≤ f * 32768 := by linarith
  have hb : f * 32768 < 32768 := by linarith
  have hbd := qtrunc_bounds (f * 32768) ha hb
  have heq : captureSample f = qtrunc (f * 32768) :=
    toInt16_of_range (f * 32768) hbd.1 hbd.2
  refine ⟨heq, ?_, ?_, by norm_num [captureSample, toInt16, qtrunc]⟩
  · rw [heq]; exact hbd.1
  · rw [heq]; exact hbd.2

/-- Witness for C5's amended statement at `f = 1/2`:
the stored sample is `trunc(16384) = 16384`, in range. -/
theorem capture_conversion_amended_witness :
    captureSample (1 / 2) = qtrunc ((1 / 2) * 32768) ∧
    -32768 ≤ captureSample (1 / 2) ∧ captureSample (1 / 2) ≤ 32767 ∧
    captureSample 1 = -32768 :=
  capture_conversion_amended (1 / 2) (by norm_num) (by norm_num)

/- ---------------------------------------------------------------------- -/
/- C6: emotion classifier precedence.                                      -/
/- ---------------------------------------------------------------------- -/

/-- C6, counterexample. The claim's universal — every text containing both
the joy keyword `happy` and the calm keyword `relax` classifies as joy —
fails when a higher-precedence keyword is also present: `"wow happy relax"`
contains both, yet classifies as `surprise`. -/
theorem emotion_precedence_cex :
    testKws [String.data "happy"] (lowered "wow happy relax") = true ∧
    testKws [String.data "relax"] (lowered "wow happy relax") = true ∧
    detectEmotion "wow happy relax" = Emotion.surprise := by
  refine ⟨?_, ?_, ?_⟩ <;> decide

lemma testKws_of_mem (kw : List Char) (kws : List (List Char)) (s : List Char)
    (hmem : kw ∈ kws) (h : testKws [kw] s = true) : testKws kws s = true := by
  simp [testKws] at h ⊢
  exact ⟨kw, hmem, h⟩

/-- The source's if-chain agrees with the first-match scan of the
precedence table, for every text. -/
lemma detectEmotion_eq_firstMatch (s : String) :
    detectEmotion s = firstMatch s := by
  cases h1 : testKws surpriseKws (lowered s) <;>
  cases h2 : testKws frustrationKws (lowered s) <;>
  cases h3 : testKws boredomKws (lowered s) <;>
  cases h4 : testKws joyKws (lowered s) <;>
  cases h5 : testKws empathyKws (lowered s) <;>
  cases h6 : testKws calmKws (lowered s) <;>
  cases h7 : testKws curiosityKws (lowered s) <;>
    simp [detectEmotion, firstMatch, precedenceList, List.find?,
          h1, h2, h3, h4, h5, h6, h7]

/-- C6, amended. The classifier lower-cases the text and applies the
keyword tests in the fixed precedence order surprise, frustration, boredom,
joy, empathy, calm, curiosity, returning the first matching category
(`detectEmotion` coincides with the first-match scan of the table). For
every text containing the joy keyword `happy` and matching no
higher-precedence category, the result is joy; and for every text matching
no category at all, the result is neutral. -/
theorem emotion_precedence_amended (s : String)
    (hs : testKws surpriseKws (lowered s) = false)
    (hf : testKws frustrationKws (lowered s) = false)
    (hb : testKws boredomKws (lowered s) = false)
    (hh : testKws [String.data "happy"] (lowered s) = true) :
    detectEmotion s = Emotion.joy ∧
    (∀ t : String, detectEmotion t = firstMatch t) ∧
    (∀ t : String,
      testKws surpriseKws (lowered t) = false →
      testKws frustrationKws (lowered t) = false →
      testKws boredomKws (lowered t) = false →
      testKws joyKws (lowered t) = false →
      testKws empathyKws (lowered t) = false →
      testKws calmKws (lowered t) = false →
      testKws curiosityKws (lowered t) = false →
      detectEmotion t = Emotion.default) := by
  refine ⟨?_, detectEmotion_eq_firstMatch, ?_⟩
  · have hj : testKws joyKws (lowered s) = true :=
      testKws_of_mem (String.data "happy") joyKws (lowered s) (by decide) hh
    simp [detectEmotion, hs, hf, hb, hj]
  · intro t t1 t2 t3 t4 t5 t6 t7
    simp [detectEmotion, t1, t2, t3, t4, t5, t6, t7]

/-- Witness for C6's amended statement at the spec's own example
`"happy relax"`, which matches no higher-precedence category. -/
theorem emotion_precedence_amended_witness :
    detectEmotion "happy relax" = Emotion.joy ∧
    (∀ t : String, detectEmotion t = firstMatch t) ∧
    (∀ t : String,
      testKws surpriseKws (lowered t) = false →
      testKws frustrationKws (lowered t) = false →
      testKws boredomKws (lowered t) = false →
      testKws joyKws (lowered t) = false →
      testKws empathyKws (lowered t) = false →
      testKws calmKws (lowered t) = false →
      testKws curiosityKws (lowered t) = false →
      detectEmotion t = Emotion.default) :=
  emotion_precedence_amended "happy relax" (by decide) (by decide) (by decide)
    (by decide)

/- ---------------------------------------------------------------------- -/
/- C2: the PCM transport codec.                                            -/
/- ---------------------------------------------------------------------- -/

/-- Modelled from the spec: the codec functions `encode`/`decode` imported
at src/App.tsx line 5 live in `src/utils/audio-utils.ts`, which is not part
of this tree. Per spec §2 and §4.1, the transport encoding packs int16
samples as 16-bit signed little-endian PCM bytes. `toLEBytes` emits, for
each sample, its two's-complement low byte then high byte. -/
def toLEBytes : List ℤ → List ℕ
  | [] => []
  | s :: rest =>
      ((s % 65536).toNat % 256) :: ((s % 65536).toNat / 256) :: toLEBytes rest

/-- Reinterpret an unsigned 16-bit value as a signed int16. -/
def sgn16 (u : ℕ) : ℤ :=
  if u < 32768 then (u : ℤ) else (u : ℤ) - 65536

/-- Modelled from the spec: inverse of `toLEBytes` — read byte pairs
little-endian and reinterpret as signed int16; a trailing odd byte is
dropped. -/
def fromLEBytes : List ℕ → List ℤ
  | b0 :: b1 :: rest => sgn16 (b0 + 256 * b1) :: fromLEBytes rest
  | _ => []

/-- Modelled from the spec: base64-style text framing (spec §2) — group
bytes in threes and emit one 6-bit value per output character. The final
group of one or two bytes yields two or three values. -/
def b64e : List ℕ → List ℕ
  | [] => []
  | [a] => [a / 4, a % 4 * 16]
  | [a, b] => [a / 4, a % 4 * 16 + b / 16, b % 16 * 4]
  | a :: b :: c :: rest =>
      (a / 4) :: (a % 4 * 16 + b / 16) :: (b % 16 * 4 + c / 64) :: (c % 64)
        :: b64e rest

/-- Modelled from the spec: inverse of `b64e` — regroup 6-bit values into
bytes, four values per three bytes, with two or three trailing values
yielding one or two bytes. -/
def b64d : List ℕ → List ℕ
  | s :: t :: u :: v :: rest =>
      (s * 4 + t / 16) :: (t % 16 * 16 + u / 4) :: (u % 4 * 64 + v) :: b64d rest
  | [s, t, u] => [s * 4 + t / 16, t % 16 * 16 + u / 4]
  | [s, t] => [s * 4 + t / 16]
  | _ => []

/-- The base64 alphabet, mapping each 6-bit value to its framing
character. -/
def b64Alphabet : List Char :=
  String.data "ABCDEFGHIJKLMNOPQRSTUVWXYZabcdefghijklmnopqrstuvwxyz0123456789+/"

/-- Maps a 6-bit value to its framing character. -/
def b64char (n : ℕ) : Char :=
  b64Alphabet.getD n '='

/-- Framing character back to its 6-bit value. -/
def b64val (c : Char) : ℕ :=
  b64Alphabet.indexOf c

/-- Modelled from the spec: `encode(frame)` — pack int16 samples as
little-endian PCM bytes and wrap them in base64-style text framing. -/
def encode (x : List ℤ) : List Char :=
  (b64e (toLEBytes x)).map b64char

/-- Modelled from the spec: `decode(chunk)` — unwrap the text framing and
read the little-endian PCM bytes back into int16 samples. -/
def decode (s : List Char) : List ℤ :=
  fromLEBytes (b64d (s.map b64val))

lemma toLEBytes_lt : ∀ x : List ℤ, ∀ b ∈ toLEBytes x, b < 256 := by
  intro x
  induction x with
  | nil => simp [toLEBytes]
  | cons s rest ih =>
      intro b hb
      have h1 : 0 ≤ s % 65536 := Int.emod_nonneg s (by norm_num)
      have h2 : s % 65536 < 65536 := Int.emod_lt_of_pos s (by norm_num)
      rw [toLEBytes] at hb
      simp only [List.mem_cons] at hb
      rcases hb with hb | hb | hb
      · omega
      · omega
      · exact ih b hb

lemma b64e_lt : ∀ l : List ℕ, (∀ b ∈ l, b < 256) → ∀ v ∈ b64e l, v < 64 := by
  intro l
  induction l using b64e.induct with
  | case1 => simp [b64e]
  | case2 a =>
      intro h v hv
      have ha := h a (by simp)
      rw [b64e] at hv
      simp only [List.mem_cons, List.not_mem_nil, or_false] at hv
      rcases hv with hv | hv <;> omega
  | case3 a b =>
      intro h v hv
      have ha := h a (by simp)
      have hb := h b (by simp)
      rw [b64e] at hv
      simp only [List.mem_cons, List.not_mem_nil, or_false] at hv
      rcases hv with hv | hv | hv <;> omega
  | case4 a b c rest ih =>
      intro h v hv
      have ha := h a (by simp)
      have hb := h b (by simp)
      have hc := h c (by simp)
      rw [b64e] at hv
      simp only [List.mem_cons] at hv
      rcases hv with hv | hv | hv | hv | hv
      · omega
      · omega
      · omega
      · omega
      · exact ih (fun y hy => h y (by simp [hy])) v hv

lemma b64_rt : ∀ l : List ℕ, (∀ b ∈ l, b < 256) → b64d (b64e l) = l := by
  intro l
  induction l using b64e.induct with
  | case1 => intro; rfl
  | case2 a =>
      intro h
      have ha := h a (by simp)
      rw [b64e]
      rw [show b64d [a / 4, a % 4 * 16] = [(a / 4) * 4 + a % 4 * 16 / 16] from rfl]
      simp only [List.cons.injEq, and_true]
      omega
  | case3 a b =>
      intro h
      have ha := h a (by simp)
      have hb := h b (by simp)
      rw [b64e]
      rw [show b64d [a / 4, a % 4 * 16 + b / 16, b % 16 * 4] =
            [(a / 4) * 4 + (a % 4 * 16 + b / 16) / 16,
             (a % 4 * 16 + b / 16) % 16 * 16 + b % 16 * 4 / 4] from rfl]
      simp only [List.cons.injEq, and_true]
      constructor <;> omega
  | case4 a b c rest ih =>
      intro h
      have ha := h a (by simp)
      have hb := h b (by simp)
      have hc := h c (by simp)
      have ih2 := ih fun y hy => h y (by simp [hy])
      rw [b64e, b64d, ih2]
      simp only [List.cons.injEq, and_true]
      refine ⟨?_, ?_, ?_⟩ <;> omega

lemma b64val_b64char : ∀ v : ℕ, v < 64 → b64val (b64char v) = v := by decide

lemma map_b64_rt (l : List ℕ) (h : ∀ v ∈ l, v < 64) :
    (l.map b64char).map b64val = l := by
  induction l with
  | nil => rfl
  | cons a l ih =>
      simp only [List.map_cons]
      rw [b64val_b64char a (h a (by simp)), ih fun v hv => h v (by simp [hv])]

lemma fromLEBytes_toLEBytes (x : List ℤ)
    (h : ∀ s ∈ x, -32768 ≤ s ∧ s ≤ 32767) :
    fromLEBytes (toLEBytes x) = x := by
  induction x with
  | nil => rfl
  | cons s rest ih =>
      have hs := h s (by simp)
      have h1 : 0 ≤ s % 65536 := Int.emod_nonneg s (by norm_num)
      have h2 : s % 65536 < 65536 := Int.emod_lt_of_pos s (by norm_num)
      rw [toLEBytes, fromLEBytes, ih fun y hy => h y (by simp [hy])]
      simp only [List.cons.injEq, and_true]
      unfold sgn16
      split <;> omega

/-- C2. Round-trip of the transport codec: for every sequence of samples in
the int16 range, decoding the encoding returns the sequence unchanged. -/
theorem codec_roundtrip (x : List ℤ)
    (h : ∀ s ∈ x, -32768 ≤ s ∧ s ≤ 32767) :
    decode (encode x) = x := by
  unfold encode decode
  rw [map_b64_rt _ (b64e_lt _ (toLEBytes_lt x)), b64_rt _ (toLEBytes_lt x),
      fromLEBytes_toLEBytes x h]

/-- Witness for C2 on a concrete frame covering 0, ±1 and both range
endpoints. -/
theorem codec_roundtrip_witness :
    (∀ s ∈ ([0, 1, -1, 32767, -32768] : List ℤ), -32768 ≤ s ∧ s ≤ 32767) ∧
    decode (encode [0, 1, -1, 32767, -32768]) = [0, 1, -1, 32767, -32768] :=
  ⟨by decide, codec_roundtrip _ (by decide)⟩

end MAyaai
